import Mathlib

/-!
Verification of the numerical core `pipedream_solver/nutils.py`.

The five routines of the source file are embedded shallowly:
float arithmetic is modelled by exact rational arithmetic (`ℚ`),
numpy column vectors and matrices by Mathlib matrices over `ℚ`,
`np.linalg.inv` by the executable adjugate-formula inverse `linalg_inv`
(equal to the Mathlib matrix inverse, hence to the true inverse exactly
when the determinant is a unit), loops by fuel-indexed
structural recursion (the fuel is the `max_iter` of the source), and the two
`ValueError` failure modes by an explicit error type inside `Except`.
-/

namespace Nutils

open Matrix

/-- Error signals of the two root finders: `ZeroDerivative` models
the derivative-is-zero `ValueError` of line 71 and `NoConvergence`
models the no-solution-found and no-zero-found `ValueError` failures of
lines 76 and 142. -/
inductive NRError where
  | ZeroDerivative
  | NoConvergence
deriving DecidableEq

/-! ### `interpolate_sample` (nutils.py lines 6-39) -/

/-- `np.searchsorted(xp, x)` with the default side, on a sorted grid:
the first index whose grid value is `≥ x`, or `xp.length` when there is
none.  The source performs a binary search; on the sorted grids of the
data-model invariant the result is exactly this leftmost insertion
index. -/
def searchsorted (xp : List ℚ) (x : ℚ) : ℕ :=
  List.findIdx (fun v => decide (x ≤ v)) xp

/-- `interpolate_sample(x, xp, fp, method)`.  Rows of the `n × m` table
`fp` are modelled by elements of a `ℚ`-module `V` (for the source,
`V = ℚ^m` with elementwise arithmetic).  The source leaves `result`
unassigned when `x` falls strictly inside the grid and `method` is
neither `0` nor `1` (and would fault on an out-of-range row access);
those paths are modelled by `none`. -/
def interpolate_sample {V : Type} [AddCommGroup V] [Module ℚ V]
    (x : ℚ) (xp : List ℚ) (fp : List V) (method : ℤ) : Option V :=
  let n := xp.length
  let ix := searchsorted xp x
  if ix = 0 then fp[0]?
  else if n ≤ ix then fp[n - 1]?
  else
    match fp[ix - 1]?, fp[ix]? with
    | some f0, some f1 =>
      let dx_0 := x - xp.getD (ix - 1) 0
      let dx_1 := xp.getD ix 0 - x
      if method = 1 then
        let frac := dx_0 / (dx_0 + dx_1)
        some ((1 - frac) • f0 + frac • f1)
      else if method = 0 then
        if |dx_0| ≤ |dx_1| then some f0 else some f1
      else none
    | _, _ => none

/-! ### `newton_raphson` (nutils.py lines 42-76) -/

/-- One unconstrained Newton step, `p = p0 - fx / dfx` (line 72).
The opaque `args` bundle of the source is folded into `f` and `df`. -/
def nr_iter (f df : ℚ → ℚ) (p0 : ℚ) : ℚ :=
  p0 - f p0 / df p0

/-- The `for n in range(max_iter)` loop of `newton_raphson`
(lines 65-76), with the remaining iteration count as fuel. -/
def nrLoop (f df : ℚ → ℚ) (atol rtol : ℚ) : ℕ → ℚ → Except NRError ℚ
  | 0, _ => .error .NoConvergence
  | Nat.succ k, p0 =>
    if f p0 = 0 then .ok p0
    else if df p0 = 0 then .error .ZeroDerivative
    else
      let p := nr_iter f df p0
      if |p - p0| ≤ atol + rtol * |p0| then .ok p
      else nrLoop f df atol rtol k p

/-- `newton_raphson(f, df, x0, args, max_iter, atol, rtol)`; the source
initializes `p0 = 1.0 * x0`. -/
def newton_raphson (f df : ℚ → ℚ) (x0 : ℚ)
    (max_iter : ℕ) (atol rtol : ℚ) : Except NRError ℚ :=
  nrLoop f df atol rtol max_iter (1 * x0)

/-! ### `bounded_newton_raphson` (nutils.py lines 79-142) -/

/-- The loop state of `bounded_newton_raphson`: the current iterate `x`,
bounds `lb = x_lb` and `ub = x_ub`, the running step size `dx`, and the
cached evaluations `fx = f(x)`, `dfx = df(x)`. -/
structure BNRState where
  x : ℚ
  lb : ℚ
  ub : ℚ
  dx : ℚ
  fx : ℚ
  dfx : ℚ

/-- Steps 2-3 of the loop body (lines 123-131): decide between a
bisection step and a Newton step and return the pair `(dx, x)` of the
new step size and the new iterate. -/
def bnrStep (s : BNRState) : ℚ × ℚ :=
  if ((s.x - s.ub) * s.dfx - s.fx) * ((s.x - s.lb) * s.dfx - s.fx) ≥ 0
      ∨ |2 * s.fx| > |s.dx * s.dfx| then
    ((s.ub - s.lb) / 2, s.lb + (s.ub - s.lb) / 2)
  else
    (s.fx / s.dfx, s.x - s.fx / s.dfx)

/-- Step 5 of the loop body (lines 136-141), reached when the step-size
test did not return: re-evaluate `f` and `df` at the new iterate and
shrink the bracket towards the side where `f` is negative. -/
def bnrAdvance (f df : ℚ → ℚ) (s : BNRState) : BNRState :=
  let dx := (bnrStep s).1
  let x := (bnrStep s).2
  let fx := f x
  let dfx := df x
  if fx < 0 then ⟨x, x, s.ub, dx, fx, dfx⟩
  else ⟨x, s.lb, x, dx, fx, dfx⟩

/-- The `for _ in range(max_iter)` loop of `bounded_newton_raphson`
(lines 122-142), with the remaining iteration count as fuel. -/
def bnrLoop (f df : ℚ → ℚ) (atol : ℚ) : ℕ → BNRState → Except NRError ℚ
  | 0, _ => .error .NoConvergence
  | Nat.succ k, s =>
    if |(bnrStep s).1| < atol then .ok (bnrStep s).2
    else bnrLoop f df atol k (bnrAdvance f df s)

/-- Steps 1b-1d of the initialization (lines 114-120), after the bounds
have already been put in their final order: clamp an out-of-bracket
`x0` to the midpoint, set `dx = |x_ub - x_lb|`, and evaluate `f`, `df`. -/
def bnrStart (f df : ℚ → ℚ) (x0 lb ub : ℚ) : BNRState :=
  let x := if x0 < lb ∨ x0 > ub then (lb + ub) / 2 else x0
  ⟨x, lb, ub, |ub - lb|, f x, df x⟩

/-- Steps 1a-1d of the initialization (lines 108-120): swap the bounds
when `f(x_lb) > f(x_ub)`, then proceed with `bnrStart`. -/
def bnrInit (f df : ℚ → ℚ) (x0 x_lb x_ub : ℚ) : BNRState :=
  if f x_lb > f x_ub then bnrStart f df x0 x_ub x_lb
  else bnrStart f df x0 x_lb x_ub

/-- `bounded_newton_raphson(f, df, x0, x_lb, x_ub, args, max_iter, atol,
rtol)`.  The `rtol` parameter is accepted, as in the source signature
(line 80), and never read by the body. -/
def bounded_newton_raphson (f df : ℚ → ℚ) (x0 x_lb x_ub : ℚ)
    (max_iter : ℕ) (atol rtol : ℚ) : Except NRError ℚ :=
  bnrLoop f df atol max_iter (bnrInit f df x0 x_lb x_ub)

/-! ### `numba_any` (nutils.py lines 144-158) -/

/-- `numba_any(x)`: scan a 1-D numeric array in index order and return
`true` at the first truthy (non-zero) element, `false` otherwise. -/
def numba_any : List ℚ → Bool
  | [] => false
  | a :: t => if a ≠ 0 then true else numba_any t

/-! ### `_kalman_semi_implicit` (nutils.py lines 161-197) -/

/-- `np.linalg.inv`, modelled executably by the adjugate formula.  For
an invertible matrix this is the true inverse; `linalg_inv_eq_inv`
identifies it with the Mathlib `Matrix.inv` for every matrix. -/
def linalg_inv {n : Type} [Fintype n] [DecidableEq n]
    (A : Matrix n n ℚ) : Matrix n n ℚ :=
  (A.det)⁻¹ • A.adjugate

theorem linalg_inv_eq_inv {n : Type} [Fintype n] [DecidableEq n]
    (A : Matrix n n ℚ) : linalg_inv A = A⁻¹ := by
  rw [linalg_inv, Matrix.inv_def, Ring.inverse_eq_inv']

/-- `_kalman_semi_implicit(Z_next, P_x_k_k, A_1, A_2, b, H, C, Qcov,
Rcov)` (lines 187-197), transcribed line by line; `np.eye(M)` is the
identity matrix `1`. -/
def kalman_semi_implicit {m p a : Type}
    [Fintype m] [DecidableEq m] [Fintype p] [DecidableEq p] [Fintype a]
    (Z_next : Matrix p (Fin 1) ℚ) (P_x_k_k : Matrix m m ℚ)
    (A_1 A_2 : Matrix m m ℚ) (b : Matrix m (Fin 1) ℚ)
    (H : Matrix p m ℚ) (C : Matrix m a ℚ)
    (Qcov : Matrix a a ℚ) (Rcov : Matrix p p ℚ) :
    Matrix m (Fin 1) ℚ × Matrix m m ℚ × Matrix p p ℚ :=
  let A_1_inv := linalg_inv A_1
  let x_k1_k := A_1_inv * b
  let P_x_k1_k := A_1_inv * A_2 * P_x_k_k * A_2ᵀ * A_1_invᵀ + C * Qcov * Cᵀ
  let L_x_k1 := P_x_k1_k * Hᵀ * linalg_inv (H * P_x_k1_k * Hᵀ + Rcov)
  let P_zz := H * P_x_k1_k * Hᵀ + Rcov
  let P_x_k1_k1 := (1 - L_x_k1 * H) * P_x_k1_k
  let x_hat := x_k1_k + L_x_k1 * (Z_next - H * x_k1_k)
  (A_1 * x_hat, P_x_k1_k1, P_zz)

/-- The reference predict/update formulas of the specification, written
with the operators of the specification: `x_pred = A_1⁻¹ b`,
`P_pred = A_1⁻¹ A_2 P A_2ᵀ A_1⁻ᵀ + C Qcov Cᵀ` (where `A_1⁻ᵀ` is the
inverse of the transpose), `P_zz = H P_pred Hᵀ + Rcov`,
`L = P_pred Hᵀ P_zz⁻¹`, `P_post = (I - L H) P_pred`, and
`b_hat = A_1 (x_pred + L (Z_next - H x_pred))`. -/
def kalman_reference {m p a : Type}
    [Fintype m] [DecidableEq m] [Fintype p] [DecidableEq p] [Fintype a]
    (Z_next : Matrix p (Fin 1) ℚ) (P_x_k_k : Matrix m m ℚ)
    (A_1 A_2 : Matrix m m ℚ) (b : Matrix m (Fin 1) ℚ)
    (H : Matrix p m ℚ) (C : Matrix m a ℚ)
    (Qcov : Matrix a a ℚ) (Rcov : Matrix p p ℚ) :
    Matrix m (Fin 1) ℚ × Matrix m m ℚ × Matrix p p ℚ :=
  let x_pred := linalg_inv A_1 * b
  let P_pred := linalg_inv A_1 * A_2 * P_x_k_k * A_2ᵀ * linalg_inv (A_1ᵀ) + C * Qcov * Cᵀ
  let P_zz := H * P_pred * Hᵀ + Rcov
  let L := P_pred * Hᵀ * linalg_inv P_zz
  let P_post := (1 - L * H) * P_pred
  let x_hat := x_pred + L * (Z_next - H * x_pred)
  (A_1 * x_hat, P_post, P_zz)

/-! ## Theorems -/

/-! ### Facts about `searchsorted` on sorted grids -/

theorem searchsorted_getD {xp : List ℚ} (hs : xp.Sorted (· < ·))
    {i : ℕ} (hi : i < xp.length) : searchsorted xp (xp.getD i 0) = i := by
  rw [List.getD_eq_getElem _ _ hi, searchsorted, List.findIdx_eq hi]
  constructor
  · simp
  · intro j hj
    have hlt : xp[j] < xp[i] :=
      List.pairwise_iff_getElem.mp hs j i (hj.trans hi) hi hj
    simp [not_le.mpr hlt]

theorem searchsorted_eq_zero {xp : List ℚ} {x : ℚ} (hpos : 0 < xp.length)
    (hx : x < xp.getD 0 0) : searchsorted xp x = 0 := by
  cases xp with
  | nil => simp at hpos
  | cons y t =>
    rw [searchsorted, List.findIdx_cons]
    simp only [List.getD_cons_zero] at hx
    simp [le_of_lt hx]

theorem searchsorted_eq_length {xp : List ℚ} {x : ℚ}
    (hs : xp.Sorted (· < ·)) (hpos : 0 < xp.length)
    (hx : xp.getD (xp.length - 1) 0 < x) : searchsorted xp x = xp.length := by
  have hlast : xp.length - 1 < xp.length := by omega
  rw [List.getD_eq_getElem _ _ hlast] at hx
  rw [searchsorted, List.findIdx_eq_length]
  intro a ha
  obtain ⟨j, hj, rfl⟩ := List.mem_iff_getElem.mp ha
  have hle : xp[j] ≤ xp[xp.length - 1] := by
    rcases eq_or_lt_of_le (by omega : j ≤ xp.length - 1) with h | h
    · exact le_of_eq (by congr)
    · exact le_of_lt (List.pairwise_iff_getElem.mp hs j (xp.length - 1) hj hlast h)
  simp [not_le.mpr (lt_of_le_of_lt hle hx)]

/-! ### Bracket invariants of `bounded_newton_raphson` -/

theorem bnrStep_mem_span (s : BNRState) :
    min s.lb s.ub ≤ (bnrStep s).2 ∧ (bnrStep s).2 ≤ max s.lb s.ub := by
  rw [bnrStep]
  by_cases hg : ((s.x - s.ub) * s.dfx - s.fx) * ((s.x - s.lb) * s.dfx - s.fx) ≥ 0
      ∨ |2 * s.fx| > |s.dx * s.dfx|
  · rw [if_pos hg]
    constructor
    · rcases le_total s.lb s.ub with h | h
      · rw [min_eq_left h]; dsimp only; linarith
      · rw [min_eq_right h]; dsimp only; linarith
    · rcases le_total s.lb s.ub with h | h
      · rw [max_eq_right h]; dsimp only; linarith
      · rw [max_eq_left h]; dsimp only; linarith
  · rw [if_neg hg]
    push_neg at hg
    obtain ⟨h1, h2⟩ := hg
    have hdfx : s.dfx ≠ 0 := by
      intro h0
      rw [h0] at h1
      nlinarith [sq_nonneg s.fx]
    have hA : (s.x - s.ub) * s.dfx - s.fx
        = s.dfx * ((s.x - s.fx / s.dfx) - s.ub) := by
      field_simp
      ring
    have hB : (s.x - s.lb) * s.dfx - s.fx
        = s.dfx * ((s.x - s.fx / s.dfx) - s.lb) := by
      field_simp
      ring
    rw [hA, hB] at h1
    have hprod : ((s.x - s.fx / s.dfx) - s.ub) * ((s.x - s.fx / s.dfx) - s.lb)
        < 0 := by
      by_contra hge
      push_neg at hge
      have hsq : 0 ≤ s.dfx ^ 2
          * (((s.x - s.fx / s.dfx) - s.ub) * ((s.x - s.fx / s.dfx) - s.lb)) :=
        mul_nonneg (sq_nonneg _) hge
      have heq : s.dfx * ((s.x - s.fx / s.dfx) - s.ub)
            * (s.dfx * ((s.x - s.fx / s.dfx) - s.lb))
          = s.dfx ^ 2
            * (((s.x - s.fx / s.dfx) - s.ub) * ((s.x - s.fx / s.dfx) - s.lb)) := by
        ring
      rw [heq] at h1
      linarith
    dsimp only
    rcases mul_neg_iff.mp hprod with ⟨ha, hb⟩ | ⟨ha, hb⟩
    · constructor
      · calc min s.lb s.ub ≤ s.ub := min_le_right _ _
          _ ≤ s.x - s.fx / s.dfx := by linarith
      · calc s.x - s.fx / s.dfx ≤ s.lb := by linarith
          _ ≤ max s.lb s.ub := le_max_left _ _
    · constructor
      · calc min s.lb s.ub ≤ s.lb := min_le_left _ _
          _ ≤ s.x - s.fx / s.dfx := by linarith
      · calc s.x - s.fx / s.dfx ≤ s.ub := by linarith
          _ ≤ max s.lb s.ub := le_max_right _ _

theorem bnrAdvance_bounds_mem_span (f df : ℚ → ℚ) (s : BNRState) :
    (min s.lb s.ub ≤ (bnrAdvance f df s).lb
      ∧ (bnrAdvance f df s).lb ≤ max s.lb s.ub)
    ∧ (min s.lb s.ub ≤ (bnrAdvance f df s).ub
      ∧ (bnrAdvance f df s).ub ≤ max s.lb s.ub) := by
  have hx := bnrStep_mem_span s
  rw [bnrAdvance]
  by_cases hf : f (bnrStep s).2 < 0
  · rw [if_pos hf]
    exact ⟨⟨hx.1, hx.2⟩, ⟨min_le_right _ _, le_max_right _ _⟩⟩
  · rw [if_neg hf]
    exact ⟨⟨min_le_left _ _, le_max_left _ _⟩, ⟨hx.1, hx.2⟩⟩

theorem bnrAdvance_width_le (f df : ℚ → ℚ) (s : BNRState) :
    |(bnrAdvance f df s).ub - (bnrAdvance f df s).lb| ≤ |s.ub - s.lb| := by
  have h := bnrAdvance_bounds_mem_span f df s
  obtain ⟨⟨hl1, hl2⟩, ⟨hu1, hu2⟩⟩ := h
  rcases le_total s.lb s.ub with hc | hc
  · rw [min_eq_left hc] at hl1 hu1
    rw [max_eq_right hc] at hl2 hu2
    rw [abs_of_nonneg (by linarith : (0:ℚ) ≤ s.ub - s.lb)]
    rw [abs_le]
    constructor <;> linarith
  · rw [min_eq_right hc] at hl1 hu1
    rw [max_eq_left hc] at hl2 hu2
    rw [abs_of_nonpos (by linarith : s.ub - s.lb ≤ (0:ℚ))]
    rw [abs_le]
    constructor <;> linarith

theorem bnrLoop_ok_mem_span (f df : ℚ → ℚ) (atol : ℚ) :
    ∀ (k : ℕ) (s : BNRState) (r : ℚ), bnrLoop f df atol k s = .ok r →
      min s.lb s.ub ≤ r ∧ r ≤ max s.lb s.ub := by
  intro k
  induction k with
  | zero =>
    intro s r h
    exact absurd h (by simp [bnrLoop])
  | succ k ih =>
    intro s r h
    rw [bnrLoop] at h
    by_cases hc : |(bnrStep s).1| < atol
    · rw [if_pos hc] at h
      obtain rfl : (bnrStep s).2 = r := by
        simpa using h
      exact bnrStep_mem_span s
    · rw [if_neg hc] at h
      have hr := ih (bnrAdvance f df s) r h
      have hb := bnrAdvance_bounds_mem_span f df s
      constructor
      · exact le_trans (le_min hb.1.1 hb.2.1) hr.1
      · exact le_trans hr.2 (max_le hb.1.2 hb.2.2)

/-- C2: every iterate produced by the loop body of
`bounded_newton_raphson` — bisection or Newton step alike — lies in the
closed interval spanned by the current bounds, the bracket width
`|x_ub - x_lb|` never increases from one iteration to the next, and
consequently any value the loop returns lies in the span of the bounds
it started from. -/
theorem bounded_newton_raphson_bracket_invariant :
    (∀ s : BNRState,
      min s.lb s.ub ≤ (bnrStep s).2 ∧ (bnrStep s).2 ≤ max s.lb s.ub) ∧
    (∀ (f df : ℚ → ℚ) (s : BNRState),
      |(bnrAdvance f df s).ub - (bnrAdvance f df s).lb| ≤ |s.ub - s.lb|) ∧
    (∀ (f df : ℚ → ℚ) (atol : ℚ) (k : ℕ) (s : BNRState) (r : ℚ),
      bnrLoop f df atol k s = .ok r →
        min s.lb s.ub ≤ r ∧ r ≤ max s.lb s.ub) :=
  ⟨bnrStep_mem_span, bnrAdvance_width_le,
    fun f df atol => bnrLoop_ok_mem_span f df atol⟩

theorem bounded_newton_raphson_bracket_invariant_witness :
    (min (0 : ℚ) 2 ≤ (bnrStep ⟨1, 0, 2, 2, -1, 1⟩).2
      ∧ (bnrStep ⟨1, 0, 2, 2, -1, 1⟩).2 ≤ max (0 : ℚ) 2) ∧
    (|(bnrAdvance (fun _ => 0) (fun _ => 0) ⟨1, 0, 2, 2, -1, 1⟩).ub
        - (bnrAdvance (fun _ => 0) (fun _ => 0) ⟨1, 0, 2, 2, -1, 1⟩).lb|
      ≤ |(2 : ℚ) - 0|) ∧
    (min (0 : ℚ) 2 ≤ 1 ∧ (1 : ℚ) ≤ max (0 : ℚ) 2) :=
  ⟨bounded_newton_raphson_bracket_invariant.1 ⟨1, 0, 2, 2, -1, 1⟩,
   bounded_newton_raphson_bracket_invariant.2.1
      (fun _ => 0) (fun _ => 0) ⟨1, 0, 2, 2, -1, 1⟩,
   bounded_newton_raphson_bracket_invariant.2.2
      (fun _ => 0) (fun _ => 0) 10 1 ⟨1, 0, 2, 2, -1, 1⟩ 1
      (by norm_num [bnrLoop, bnrStep])⟩

/-! ### Budget exhaustion of the two root finders -/

theorem nrLoop_no_convergence (f df : ℚ → ℚ) (atol rtol : ℚ) :
    ∀ (n : ℕ) (p0 : ℚ),
      (∀ i < n, f ((nr_iter f df)^[i] p0) ≠ 0
        ∧ df ((nr_iter f df)^[i] p0) ≠ 0
        ∧ ¬(|(nr_iter f df)^[i + 1] p0 - (nr_iter f df)^[i] p0|
            ≤ atol + rtol * |(nr_iter f df)^[i] p0|)) →
      nrLoop f df atol rtol n p0 = .error .NoConvergence := by
  intro n
  induction n with
  | zero => intro p0 _; rfl
  | succ k ih =>
    intro p0 h
    obtain ⟨h1, h2, h3⟩ := h 0 (Nat.succ_pos k)
    simp only [zero_add, Function.iterate_one, Function.iterate_zero_apply]
      at h1 h2 h3
    simp only [nrLoop]
    rw [if_neg h1, if_neg h2, if_neg h3]
    apply ih
    intro i hi
    have hs := h (i + 1) (by omega)
    simp only [Function.iterate_succ_apply] at hs
    exact hs

theorem bnrLoop_no_convergence (f df : ℚ → ℚ) (atol : ℚ) :
    ∀ (n : ℕ) (s : BNRState),
      (∀ i < n, ¬(|(bnrStep ((bnrAdvance f df)^[i] s)).1| < atol)) →
      bnrLoop f df atol n s = .error .NoConvergence := by
  intro n
  induction n with
  | zero => intro s _; rfl
  | succ k ih =>
    intro s h
    have h0 := h 0 (Nat.succ_pos k)
    rw [Function.iterate_zero_apply] at h0
    rw [bnrLoop, if_neg h0]
    apply ih
    intro i hi
    have hs := h (i + 1) (by omega)
    rwa [Function.iterate_succ_apply] at hs

/-- C7: both root finders turn an exhausted iteration budget into a
failure: if `max_iter` iterations of `newton_raphson` elapse with no
exact zero and the step-size criterion never met, or `max_iter`
iterations of `bounded_newton_raphson` elapse with `|dx| < atol` never
met, the call returns `NoConvergence` and no value. -/
theorem root_finders_exhaust_budget_to_failure :
    (∀ (f df : ℚ → ℚ) (x0 : ℚ) (n : ℕ) (atol rtol : ℚ),
      (∀ i < n, f ((nr_iter f df)^[i] x0) ≠ 0
        ∧ df ((nr_iter f df)^[i] x0) ≠ 0
        ∧ ¬(|(nr_iter f df)^[i + 1] x0 - (nr_iter f df)^[i] x0|
            ≤ atol + rtol * |(nr_iter f df)^[i] x0|)) →
      newton_raphson f df x0 n atol rtol = .error .NoConvergence) ∧
    (∀ (f df : ℚ → ℚ) (x0 x_lb x_ub : ℚ) (n : ℕ) (atol rtol : ℚ),
      (∀ i < n,
        ¬(|(bnrStep ((bnrAdvance f df)^[i] (bnrInit f df x0 x_lb x_ub))).1|
            < atol)) →
      bounded_newton_raphson f df x0 x_lb x_ub n atol rtol
        = .error .NoConvergence) := by
  constructor
  · intro f df x0 n atol rtol h
    rw [newton_raphson, one_mul]
    exact nrLoop_no_convergence f df atol rtol n x0 h
  · intro f df x0 x_lb x_ub n atol rtol h
    rw [bounded_newton_raphson]
    exact bnrLoop_no_convergence f df atol n (bnrInit f df x0 x_lb x_ub) h

theorem root_finders_exhaust_budget_to_failure_witness :
    newton_raphson (fun _ => 1) (fun _ => 1) 0 1 0 0
      = .error .NoConvergence ∧
    bounded_newton_raphson (fun _ => 1) (fun _ => 1) 0 0 2 1 0 0
      = .error .NoConvergence :=
  ⟨root_finders_exhaust_budget_to_failure.1 (fun _ => 1) (fun _ => 1) 0 1 0 0
    (by
      intro i hi
      obtain rfl : i = 0 := by omega
      refine ⟨by norm_num, by norm_num, ?_⟩
      simp [nr_iter]),
   root_finders_exhaust_budget_to_failure.2 (fun _ => 1) (fun _ => 1) 0 0 2 1 0 0
    (by
      intro i hi
      exact not_lt.mpr (abs_nonneg _))⟩

/-- C3: on a strictly ascending grid `xp` with a matching table `fp`,
linear interpolation reproduces every grid row exactly
(`interpolate_sample xp[i] xp fp 1 = fp[i]`); for `x` below the first
grid point the result is the first row, and for `x` above the last grid
point it is the last row — clamping, with a defined (`some`) result in
both out-of-range cases. -/
theorem interpolate_sample_grid_and_clamp {V : Type} [AddCommGroup V] [Module ℚ V]
    (xp : List ℚ) (fp : List V) (x0 : ℚ) (i : ℕ)
    (hs : xp.Sorted (· < ·)) (hlen : fp.length = xp.length)
    (hpos : 0 < xp.length) :
    (i < xp.length →
      interpolate_sample (xp.getD i 0) xp fp 1 = some (fp.getD i 0)) ∧
    (x0 < xp.getD 0 0 →
      interpolate_sample x0 xp fp 1 = some (fp.getD 0 0)) ∧
    (xp.getD (xp.length - 1) 0 < x0 →
      interpolate_sample x0 xp fp 1 = some (fp.getD (xp.length - 1) 0)) := by
  have hfp0 : fp.getD 0 0 = fp[0] :=
    List.getD_eq_getElem fp 0 (show 0 < fp.length by omega)
  refine ⟨?_, ?_, ?_⟩
  · intro hi
    have hix := searchsorted_getD hs hi
    have hi2 : i < fp.length := by omega
    have hfpi : fp.getD i 0 = fp[i] := List.getD_eq_getElem fp 0 hi2
    rw [interpolate_sample]
    simp only [hix]
    rcases Nat.eq_zero_or_pos i with h0 | h0
    · subst h0
      rw [if_pos rfl, List.getElem?_eq_getElem (show 0 < fp.length by omega),
        hfp0]
    · rw [if_neg (by omega), if_neg (by omega)]
      have hi1 : i - 1 < fp.length := by omega
      have e1 : xp.getD (i - 1) 0 = xp[i - 1] :=
        List.getD_eq_getElem xp 0 (show i - 1 < xp.length by omega)
      have e2 : xp.getD i 0 = xp[i] := List.getD_eq_getElem xp 0 hi
      have hxlt : xp[i - 1] < xp[i] :=
        List.pairwise_iff_getElem.mp hs (i - 1) i (by omega) hi (by omega)
      have hdx0 : xp[i] - xp[i - 1] ≠ 0 := by linarith
      rw [List.getElem?_eq_getElem hi1, List.getElem?_eq_getElem hi2, e1, e2,
        sub_self, add_zero, div_self hdx0, sub_self]
      simp only [zero_smul, one_smul, zero_add, hfpi]
      rfl
  · intro hx
    have hix := searchsorted_eq_zero hpos hx
    rw [interpolate_sample]
    simp only [hix, if_true]
    rw [List.getElem?_eq_getElem (show 0 < fp.length by omega), hfp0]
  · intro hx
    have hix := searchsorted_eq_length hs hpos hx
    have hl : xp.length - 1 < fp.length := by omega
    have hfpl : fp.getD (xp.length - 1) 0 = fp[xp.length - 1] :=
      List.getD_eq_getElem fp 0 hl
    rw [interpolate_sample]
    simp only [hix]
    rw [if_neg (by omega), if_pos (le_refl _), hfpl,
      List.getElem?_eq_getElem (show xp.length - 1 < fp.length by omega)]


theorem interpolate_sample_grid_and_clamp_witness :
    interpolate_sample ((1 : ℚ)) [0, 1] [(2 : ℚ), 3] 1 = some 3 ∧
    interpolate_sample ((5 : ℚ)) [0, 1] [(2 : ℚ), 3] 1 = some 3 :=
  ⟨(interpolate_sample_grid_and_clamp [0, 1] [(2 : ℚ), 3] 5 1
      (by decide) (by decide) (by decide)).1 (by decide),
   (interpolate_sample_grid_and_clamp [0, 1] [(2 : ℚ), 3] 5 1
      (by decide) (by decide) (by decide)).2.2 (by decide)⟩

/-- C10: for a `method` that is neither `0` nor `1`, the two clamping
branches still return the clamped row, because clamping is decided
before the method dispatch; but for `x` strictly inside the grid no
branch assigns a result — the value is undefined (`none`), never a
blended or neighbor row. -/
theorem interpolate_sample_invalid_method {V : Type}
    [AddCommGroup V] [Module ℚ V]
    (x : ℚ) (xp : List ℚ) (fp : List V) (method : ℤ)
    (hm0 : method ≠ 0) (hm1 : method ≠ 1) :
    (searchsorted xp x = 0 → interpolate_sample x xp fp method = fp[0]?) ∧
    (xp.length ≤ searchsorted xp x →
      interpolate_sample x xp fp method = fp[xp.length - 1]?) ∧
    (0 < searchsorted xp x → searchsorted xp x < xp.length →
      interpolate_sample x xp fp method = none) := by
  refine ⟨?_, ?_, ?_⟩
  · intro hix
    rw [interpolate_sample]
    simp only [hix, if_true]
  · intro hlen
    rcases Nat.eq_zero_or_pos (searchsorted xp x) with h0 | h0
    · have hn : xp.length = 0 := by omega
      rw [interpolate_sample]
      simp only [h0, hn, if_true]
    · rw [interpolate_sample]
      simp only [if_neg (by omega : ¬searchsorted xp x = 0), if_pos hlen]
  · intro h0 hlt
    rw [interpolate_sample]
    simp only [if_neg (by omega : ¬searchsorted xp x = 0),
      if_neg (by omega : ¬xp.length ≤ searchsorted xp x)]
    rcases hA : fp[searchsorted xp x - 1]? with _ | f0 <;>
      rcases hB : fp[searchsorted xp x]? with _ | f1 <;>
        simp [hA, hB, hm0, hm1]

theorem interpolate_sample_invalid_method_witness :
    interpolate_sample ((-1 : ℚ)) [0, 1] [(2 : ℚ), 3] 2 = some 2 ∧
    interpolate_sample ((5 : ℚ)) [0, 1] [(2 : ℚ), 3] 2 = some 3 ∧
    interpolate_sample ((1 : ℚ)) [0, 2] [(2 : ℚ), 3] 2 = none :=
  ⟨(interpolate_sample_invalid_method (-1) [0, 1] [(2 : ℚ), 3] 2
      (by decide) (by decide)).1 (by decide),
   (interpolate_sample_invalid_method 5 [0, 1] [(2 : ℚ), 3] 2
      (by decide) (by decide)).2.1 (by decide),
   (interpolate_sample_invalid_method 1 [0, 2] [(2 : ℚ), 3] 2
      (by decide) (by decide)).2.2 (by decide) (by decide)⟩

/-- C8: `numba_any x` is `true` exactly when some element of `x` is
non-zero — the standard "any" reduction; in particular it is `false` on
the empty array and on `[0,0,0]`, and `true` on `[0,0,1]`. -/
theorem numba_any_eq_any_nonzero :
    (∀ x : List ℚ, numba_any x = true ↔ ∃ a ∈ x, a ≠ 0) ∧
    numba_any [] = false ∧
    numba_any [0, 0, 0] = false ∧
    numba_any [0, 0, 1] = true := by
  refine ⟨?_, rfl, by decide, by decide⟩
  intro x
  induction x with
  | nil => simp [numba_any]
  | cons a t ih =>
    by_cases ha : a = 0 <;> simp [numba_any, ha, ih]

/-- C9: `bounded_newton_raphson` ignores its `rtol` argument: two calls
differing only in `rtol` return the same `Except` value. -/
theorem bounded_newton_raphson_rtol_irrelevant
    (f df : ℚ → ℚ) (x0 x_lb x_ub : ℚ) (max_iter : ℕ)
    (atol rtol₁ rtol₂ : ℚ) :
    bounded_newton_raphson f df x0 x_lb x_ub max_iter atol rtol₁ =
      bounded_newton_raphson f df x0 x_lb x_ub max_iter atol rtol₂ := rfl

/-- C6: when `f x_lb > f x_ub`, the bounds are swapped on entry, so the
call with the bracket `(a, b)` where `f a > f b` behaves exactly like
the call with the bracket `(b, a)` — same result or same failure. -/
theorem bounded_newton_raphson_reversed_bracket
    (f df : ℚ → ℚ) (x0 a b : ℚ) (n : ℕ) (atol rtol : ℚ)
    (h : f a > f b) :
    bounded_newton_raphson f df x0 a b n atol rtol =
      bounded_newton_raphson f df x0 b a n atol rtol := by
  unfold bounded_newton_raphson bnrInit
  rw [if_pos h, if_neg (lt_asymm h)]

theorem bounded_newton_raphson_reversed_bracket_witness :
    bounded_newton_raphson (fun x => x) (fun _ => 1) 1 2 0 5 1 0 =
      bounded_newton_raphson (fun x => x) (fun _ => 1) 1 0 2 5 1 0 :=
  bounded_newton_raphson_reversed_bracket (fun x => x) (fun _ => 1)
    1 2 0 5 1 0 (by norm_num)

/-- C5: in each `newton_raphson` iteration, `f(p0) = 0` returns `p0` at
once — for every derivative function, so `df` plays no role in that
case; otherwise `df(p0) = 0` fails with `ZeroDerivative`; and with an
identically-zero derivative and `f(x0) ≠ 0` the whole call fails with
`ZeroDerivative` on the first iteration. -/
theorem newton_raphson_exact_zero_and_zero_derivative :
    (∀ (f df : ℚ → ℚ) (atol rtol : ℚ) (k : ℕ) (p0 : ℚ),
      f p0 = 0 → nrLoop f df atol rtol (k + 1) p0 = .ok p0) ∧
    (∀ (f df : ℚ → ℚ) (atol rtol : ℚ) (k : ℕ) (p0 : ℚ),
      f p0 ≠ 0 → df p0 = 0 →
      nrLoop f df atol rtol (k + 1) p0 = .error .ZeroDerivative) ∧
    (∀ (f : ℚ → ℚ) (x0 : ℚ) (n : ℕ) (atol rtol : ℚ),
      f x0 ≠ 0 → 0 < n →
      newton_raphson f (fun _ => 0) x0 n atol rtol =
        .error .ZeroDerivative) := by
  refine ⟨?_, ?_, ?_⟩
  · intro f df atol rtol k p0 h
    simp [nrLoop, h]
  · intro f df atol rtol k p0 h1 h2
    simp [nrLoop, h1, h2]
  · intro f x0 n atol rtol hf hn
    obtain ⟨k, rfl⟩ : ∃ k, n = k + 1 := ⟨n - 1, by omega⟩
    unfold newton_raphson
    rw [one_mul]
    simp [nrLoop, hf]

theorem newton_raphson_exact_zero_and_zero_derivative_witness :
    nrLoop (fun _ => 0) (fun _ => 1) 1 0 1 5 = .ok 5 ∧
    nrLoop (fun _ => 1) (fun _ => 0) 1 0 1 5 = .error .ZeroDerivative ∧
    newton_raphson (fun _ => 1) (fun _ => 0) 5 50 1 0 =
      .error .ZeroDerivative :=
  ⟨newton_raphson_exact_zero_and_zero_derivative.1
      (fun _ => 0) (fun _ => 1) 1 0 0 5 rfl,
   newton_raphson_exact_zero_and_zero_derivative.2.1
      (fun _ => 1) (fun _ => 0) 1 0 0 5 (by norm_num) rfl,
   newton_raphson_exact_zero_and_zero_derivative.2.2
      (fun _ => 1) 5 50 1 0 (by norm_num) (by norm_num)⟩


/-! ### Kalman update facts -/

theorem dot_self_nonneg {n : Type} [Fintype n] (v : n → ℚ) :
    0 ≤ v ⬝ᵥ v :=
  Finset.sum_nonneg fun i _ => mul_self_nonneg (v i)

theorem psd_shift_isUnit {n : Type} [Fintype n] [DecidableEq n]
    (P : Matrix n n ℚ) (hpsd : ∀ u : n → ℚ, 0 ≤ u ⬝ᵥ (P *ᵥ u)) :
    IsUnit (P + 1 + 1).det := by
  rw [isUnit_iff_ne_zero]
  intro hdet
  obtain ⟨u, hu, hmul⟩ := Matrix.exists_mulVec_eq_zero_iff.mpr hdet
  have h0 : u ⬝ᵥ ((P + 1 + 1) *ᵥ u) = 0 := by
    rw [hmul, dotProduct_zero]
  rw [Matrix.add_mulVec, Matrix.add_mulVec, Matrix.one_mulVec,
    dotProduct_add, dotProduct_add] at h0
  have h1 := hpsd u
  have h2 := dot_self_nonneg u
  have h3 : u ⬝ᵥ u = 0 := by linarith
  exact hu (dotProduct_self_eq_zero.mp h3)

theorem kalman_identity_unfold {n : Type} [Fintype n] [DecidableEq n]
    (P : Matrix n n ℚ) (b : Matrix n (Fin 1) ℚ) :
    kalman_semi_implicit b P 1 1 b 1 (1 : Matrix n n ℚ) 1 1
      = (b, (1 - (P + 1) * (P + 1 + 1)⁻¹) * (P + 1), P + 1 + 1) := by
  simp [kalman_semi_implicit, linalg_inv_eq_inv, inv_one,
    Matrix.transpose_one, Matrix.one_mul, Matrix.mul_one, sub_self,
    Matrix.mul_zero, add_zero]

/-- C4: with `A_1 = A_2 = H = C = I`, identity noise covariances and
`Z_next = b`, the filter returns `b_hat = Z_next` exactly, and for any
symmetric positive semi-definite `P_x_k_k` the returned `P_post` is
symmetric with a nonnegative quadratic form (`vᵀ P_post v ≥ 0`). -/
theorem kalman_identity_trusts_observation {n : Type}
    [Fintype n] [DecidableEq n]
    (P : Matrix n n ℚ) (b : Matrix n (Fin 1) ℚ) (v : n → ℚ)
    (hsym : Pᵀ = P) (hpsd : ∀ u : n → ℚ, 0 ≤ u ⬝ᵥ (P *ᵥ u)) :
    (kalman_semi_implicit b P 1 1 b 1 (1 : Matrix n n ℚ) 1 1).1 = b
    ∧ ((kalman_semi_implicit b P 1 1 b 1 (1 : Matrix n n ℚ) 1 1).2.1)ᵀ
        = (kalman_semi_implicit b P 1 1 b 1 (1 : Matrix n n ℚ) 1 1).2.1
    ∧ 0 ≤ v ⬝ᵥ ((kalman_semi_implicit b P 1 1 b 1 (1 : Matrix n n ℚ) 1 1).2.1 *ᵥ v) := by
  have hS := psd_shift_isUnit P hpsd
  have e1 : (1 : Matrix n n ℚ) - (P + 1) * (P + 1 + 1)⁻¹ = (P + 1 + 1)⁻¹ := by
    calc (1 : Matrix n n ℚ) - (P + 1) * (P + 1 + 1)⁻¹
        = (P + 1 + 1) * (P + 1 + 1)⁻¹ - (P + 1) * (P + 1 + 1)⁻¹ := by
          rw [Matrix.mul_nonsing_inv _ hS]
      _ = ((P + 1 + 1) - (P + 1)) * (P + 1 + 1)⁻¹ := by
          rw [Matrix.sub_mul]
      _ = 1 * (P + 1 + 1)⁻¹ := by rw [add_sub_cancel_left]
      _ = (P + 1 + 1)⁻¹ := by rw [Matrix.one_mul]
  have hmulc : (P + 1) * (P + 1 + 1) = (P + 1 + 1) * (P + 1) := by
    noncomm_ring
  have hcomm : (P + 1 + 1)⁻¹ * (P + 1) = (P + 1) * (P + 1 + 1)⁻¹ := by
    calc (P + 1 + 1)⁻¹ * (P + 1)
        = (P + 1 + 1)⁻¹ * (P + 1) * ((P + 1 + 1) * (P + 1 + 1)⁻¹) := by
          rw [Matrix.mul_nonsing_inv _ hS, Matrix.mul_one]
      _ = (P + 1 + 1)⁻¹ * ((P + 1) * (P + 1 + 1)) * (P + 1 + 1)⁻¹ := by
          simp only [Matrix.mul_assoc]
      _ = (P + 1 + 1)⁻¹ * ((P + 1 + 1) * (P + 1)) * (P + 1 + 1)⁻¹ := by
          rw [hmulc]
      _ = (P + 1 + 1)⁻¹ * (P + 1 + 1) * ((P + 1) * (P + 1 + 1)⁻¹) := by
          simp only [Matrix.mul_assoc]
      _ = (P + 1) * (P + 1 + 1)⁻¹ := by
          rw [Matrix.nonsing_inv_mul _ hS, Matrix.one_mul]
  have hsymS : (P + 1 + 1)ᵀ = P + 1 + 1 := by
    rw [Matrix.transpose_add, Matrix.transpose_add, Matrix.transpose_one,
      hsym]
  have hsymP1 : (P + 1)ᵀ = P + 1 := by
    rw [Matrix.transpose_add, Matrix.transpose_one, hsym]
  have hpost : (kalman_semi_implicit b P 1 1 b 1 (1 : Matrix n n ℚ) 1 1).2.1
      = (P + 1 + 1)⁻¹ * (P + 1) := by
    rw [kalman_identity_unfold]
    dsimp only
    rw [e1]
  refine ⟨by rw [kalman_identity_unfold], ?_, ?_⟩
  · rw [hpost, Matrix.transpose_mul, Matrix.transpose_nonsing_inv, hsymS,
      hsymP1, ← hcomm]
  · rw [hpost]
    have hv : (P + 1 + 1) *ᵥ ((P + 1 + 1)⁻¹ *ᵥ v) = v := by
      rw [Matrix.mulVec_mulVec, Matrix.mul_nonsing_inv _ hS,
        Matrix.one_mulVec]
    have hmv : ((P + 1 + 1)⁻¹ * (P + 1)) *ᵥ v
        = (P + 1) *ᵥ ((P + 1 + 1)⁻¹ *ᵥ v) := by
      rw [hcomm, ← Matrix.mulVec_mulVec]
    rw [hmv]
    nth_rewrite 1 [← hv]
    have e2 : (P + 1 + 1) *ᵥ ((P + 1 + 1)⁻¹ *ᵥ v)
        = P *ᵥ ((P + 1 + 1)⁻¹ *ᵥ v) + ((P + 1 + 1)⁻¹ *ᵥ v)
          + ((P + 1 + 1)⁻¹ *ᵥ v) := by
      rw [Matrix.add_mulVec, Matrix.add_mulVec, Matrix.one_mulVec]
    have e3 : (P + 1) *ᵥ ((P + 1 + 1)⁻¹ *ᵥ v)
        = P *ᵥ ((P + 1 + 1)⁻¹ *ᵥ v) + ((P + 1 + 1)⁻¹ *ᵥ v) := by
      rw [Matrix.add_mulVec, Matrix.one_mulVec]
    rw [e2, e3]
    have hc : (P *ᵥ ((P + 1 + 1)⁻¹ *ᵥ v)) ⬝ᵥ ((P + 1 + 1)⁻¹ *ᵥ v)
        = ((P + 1 + 1)⁻¹ *ᵥ v) ⬝ᵥ (P *ᵥ ((P + 1 + 1)⁻¹ *ᵥ v)) :=
      dotProduct_comm _ _
    simp only [add_dotProduct, dotProduct_add]
    have h1 := hpsd ((P + 1 + 1)⁻¹ *ᵥ v)
    have h2 := dot_self_nonneg ((P + 1 + 1)⁻¹ *ᵥ v)
    have h3 := dot_self_nonneg (P *ᵥ ((P + 1 + 1)⁻¹ *ᵥ v))
    linarith [hc]


theorem kalman_identity_trusts_observation_witness :
    (kalman_semi_implicit (0 : Matrix (Fin 1) (Fin 1) ℚ) 0 1 1 0 1
        (1 : Matrix (Fin 1) (Fin 1) ℚ) 1 1).1 = 0
    ∧ 0 ≤ (fun _ => (1 : ℚ)) ⬝ᵥ
        ((kalman_semi_implicit (0 : Matrix (Fin 1) (Fin 1) ℚ) 0 1 1 0 1
          (1 : Matrix (Fin 1) (Fin 1) ℚ) 1 1).2.1 *ᵥ (fun _ => (1 : ℚ))) := by
  have h := kalman_identity_trusts_observation
    (0 : Matrix (Fin 1) (Fin 1) ℚ) 0 (fun _ => 1) (by simp)
    (by intro u; simp)
  exact ⟨h.1, h.2.2⟩

/-- C1: whenever `A_1` and the innovation covariance
`H P_pred Hᵀ + Rcov` are invertible, `_kalman_semi_implicit` returns
exactly the reference triple `(A_1 (x_pred + L (Z_next - H x_pred)),
(I - L H) P_pred, H P_pred Hᵀ + Rcov)` with
`P_pred = A_1⁻¹ A_2 P A_2ᵀ A_1⁻ᵀ + C Qcov Cᵀ` and
`L = P_pred Hᵀ (H P_pred Hᵀ + Rcov)⁻¹`. -/
theorem kalman_semi_implicit_matches_reference {m p a : Type}
    [Fintype m] [DecidableEq m] [Fintype p] [DecidableEq p] [Fintype a]
    (Z_next : Matrix p (Fin 1) ℚ) (P_x_k_k : Matrix m m ℚ)
    (A_1 A_2 : Matrix m m ℚ) (b : Matrix m (Fin 1) ℚ)
    (H : Matrix p m ℚ) (C : Matrix m a ℚ)
    (Qcov : Matrix a a ℚ) (Rcov : Matrix p p ℚ)
    (hA : IsUnit A_1.det)
    (hS : IsUnit (H * (linalg_inv A_1 * A_2 * P_x_k_k * A_2ᵀ
        * linalg_inv (A_1ᵀ) + C * Qcov * Cᵀ) * Hᵀ + Rcov).det) :
    kalman_semi_implicit Z_next P_x_k_k A_1 A_2 b H C Qcov Rcov
      = kalman_reference Z_next P_x_k_k A_1 A_2 b H C Qcov Rcov := by
  simp only [kalman_semi_implicit, kalman_reference, linalg_inv_eq_inv,
    Matrix.transpose_nonsing_inv]

theorem kalman_semi_implicit_matches_reference_witness :
    kalman_semi_implicit (0 : Matrix (Fin 1) (Fin 1) ℚ) 1 1 1 0 1
        (1 : Matrix (Fin 1) (Fin 1) ℚ) 1 1
      = kalman_reference (0 : Matrix (Fin 1) (Fin 1) ℚ) 1 1 1 0 1
        (1 : Matrix (Fin 1) (Fin 1) ℚ) 1 1 :=
  kalman_semi_implicit_matches_reference 0 1 1 1 0 1 1 1 1
    (by simp)
    (by
      simp [linalg_inv_eq_inv, Matrix.det_fin_one, Matrix.add_apply,
        Matrix.one_apply_eq, isUnit_iff_ne_zero]
      norm_num)

end Nutils
